import Mathlib

/-!
# Verification of the claude-burn-rate analytics core

A shallow embedding, in Lean, of the analytics core of the repository:
the pricing table (`src/cost/pricing.js`), the session log parser
(`src/data/session-parser.js`), the session indexer (`reader.js`), the
overview aggregator (`src/analysis/overview.js`) and the security/audit
engine (`src/analysis/security.js`), together with theorems settling the
specification's claims about them.

Modelling conventions:
* JavaScript numbers used as token counters are modelled as `Nat`
  (they are non-negative integers in every source path); dollar costs,
  which involve division by 1,000,000, are modelled as exact rationals `ℚ`.
* A JavaScript object used as a string-keyed map is modelled as an
  association list `List (String × _)` in insertion order (the order
  `Object.entries` iterates for string keys).
* A possibly-absent field (`x.y || 0`, `x.y || null`) is modelled as an
  `Option` with explicit defaulting.
-/

/-! ## Pricing table — `src/cost/pricing.js` -/

/-- `PricingEntry` — per-million-token USD rates (`pricing.js` table values). -/
structure PricingEntry where
  input : ℚ
  output : ℚ
  cacheRead : ℚ
  cacheWrite : ℚ
  displayName : String
deriving DecidableEq

/-- `MODEL_PRICING` from `pricing.js` lines 3–39, in declaration order
(key order matters for the prefix-match step of `getPricing`). -/
def MODEL_PRICING : List (String × PricingEntry) :=
  [ ("claude-opus-4-6",
      { input := 15, output := 75, cacheRead := 3/2, cacheWrite := 75/4,
        displayName := "Claude Opus 4.6" }),
    ("claude-opus-4-5-20251101",
      { input := 15, output := 75, cacheRead := 3/2, cacheWrite := 75/4,
        displayName := "Claude Opus 4.5" }),
    ("claude-sonnet-4-6",
      { input := 3, output := 15, cacheRead := 3/10, cacheWrite := 15/4,
        displayName := "Claude Sonnet 4.6" }),
    ("claude-sonnet-4-5-20250929",
      { input := 3, output := 15, cacheRead := 3/10, cacheWrite := 15/4,
        displayName := "Claude Sonnet 4.5" }),
    ("claude-haiku-4-5-20251001",
      { input := 4/5, output := 4, cacheRead := 2/25, cacheWrite := 1,
        displayName := "Claude Haiku 4.5" }) ]

/-- `FALLBACK_PRICING` from `pricing.js` lines 42–48 (Sonnet-tier estimate). -/
def FALLBACK_PRICING : PricingEntry :=
  { input := 3, output := 15, cacheRead := 3/10, cacheWrite := 15/4,
    displayName := "Unknown Model" }

/-- The entry built by `getPricing` line 60 for ids containing "opus":
`{ ...FALLBACK_PRICING, input: 15.00, output: 75.00, cacheRead: 1.50, cacheWrite: 18.75 }`. -/
def OPUS_INFERRED : PricingEntry :=
  { FALLBACK_PRICING with input := 15, output := 75, cacheRead := 3/2, cacheWrite := 75/4 }

/-- The entry built by `getPricing` line 61 for ids containing "haiku". -/
def HAIKU_INFERRED : PricingEntry :=
  { FALLBACK_PRICING with input := 4/5, output := 4, cacheRead := 2/25, cacheWrite := 1 }

/-- JS `a.includes(b)` on strings: `b` occurs as a contiguous substring of `a`. -/
def strIncludes (a b : String) : Bool := decide (b.data <:+: a.data)

/-- JS `a.startsWith(b)`: `b` is a prefix of `a` (modelled on character lists). -/
def jsStartsWith (a b : String) : Bool := decide (b.data <+: a.data)

/-- `getPricing(modelId)` — `pricing.js` lines 50–64: exact table match, then
first prefix match in table order, then "opus"/"haiku" substring inference,
then the Sonnet-tier fallback. -/
def getPricing (modelId : String) : PricingEntry :=
  match MODEL_PRICING.find? (fun p => p.1 == modelId) with
  | some p => p.2
  | none =>
    match MODEL_PRICING.find? (fun p => jsStartsWith modelId p.1) with
    | some p => p.2
    | none =>
      if strIncludes modelId "opus" then OPUS_INFERRED
      else if strIncludes modelId "haiku" then HAIKU_INFERRED
      else FALLBACK_PRICING

/-- The raw token-usage shape: each of the four counters may be absent
(`usage.inputTokens || 0` in the source defaults it to 0). -/
structure TokenUsage where
  inputTokens : Option Nat := none
  outputTokens : Option Nat := none
  cacheReadInputTokens : Option Nat := none
  cacheCreationInputTokens : Option Nat := none
deriving DecidableEq

/-- JS `x || 0` on a possibly-absent counter. -/
def orZero (x : Option Nat) : Nat := x.getD 0

/-- Four definitely-present accumulated counters (the shape of the
aggregation accumulators initialised to `{ inputTokens: 0, ... }`). -/
structure Counters where
  inputTokens : Nat := 0
  outputTokens : Nat := 0
  cacheReadInputTokens : Nat := 0
  cacheCreationInputTokens : Nat := 0
deriving DecidableEq

def Counters.toUsage (c : Counters) : TokenUsage :=
  { inputTokens := some c.inputTokens, outputTokens := some c.outputTokens,
    cacheReadInputTokens := some c.cacheReadInputTokens,
    cacheCreationInputTokens := some c.cacheCreationInputTokens }

/-- `CostBreakdown` — the object returned by `calculateCost`
(`pricing.js` lines 75–87); `breakdown` echoes the defaulted counters. -/
structure CostBreakdown where
  inputCost : ℚ
  outputCost : ℚ
  cacheReadCost : ℚ
  cacheWriteCost : ℚ
  totalCost : ℚ
  breakdown : Counters
deriving DecidableEq

/-- `calculateCost(usage, modelId)` — `pricing.js` lines 66–88. -/
def calculateCost (usage : TokenUsage) (modelId : String) : CostBreakdown :=
  let pricing := getPricing modelId
  let perMillion : ℚ := 1000000
  let inputCost := ((orZero usage.inputTokens : ℚ) / perMillion) * pricing.input
  let outputCost := ((orZero usage.outputTokens : ℚ) / perMillion) * pricing.output
  let cacheReadCost := ((orZero usage.cacheReadInputTokens : ℚ) / perMillion) * pricing.cacheRead
  let cacheWriteCost := ((orZero usage.cacheCreationInputTokens : ℚ) / perMillion) * pricing.cacheWrite
  { inputCost := inputCost, outputCost := outputCost,
    cacheReadCost := cacheReadCost, cacheWriteCost := cacheWriteCost,
    totalCost := inputCost + outputCost + cacheReadCost + cacheWriteCost,
    breakdown :=
      { inputTokens := orZero usage.inputTokens,
        outputTokens := orZero usage.outputTokens,
        cacheReadInputTokens := orZero usage.cacheReadInputTokens,
        cacheCreationInputTokens := orZero usage.cacheCreationInputTokens } }

/-- Per-model cost record stored in `calculateTotalCost`'s `byModel` map
(`{ ...cost, displayName }`). -/
structure ModelCostInfo where
  cost : CostBreakdown
  displayName : String
deriving DecidableEq

/-- Result shape of `calculateTotalCost` (`pricing.js` lines 90–105). -/
structure TotalCostResult where
  totalCost : ℚ
  byModel : List (String × ModelCostInfo)
deriving DecidableEq

/-- `calculateTotalCost(modelUsage)` — `pricing.js` lines 90–105: fold over
the model-usage map entries in order, summing `totalCost` and recording a
per-model breakdown tagged with the resolved display name. -/
def calculateTotalCost (modelUsage : List (String × TokenUsage)) : TotalCostResult :=
  modelUsage.foldl
    (fun acc entry =>
      let cost := calculateCost entry.2 entry.1
      let pricing := getPricing entry.1
      { totalCost := acc.totalCost + cost.totalCost,
        byModel := acc.byModel ++ [(entry.1, { cost := cost, displayName := pricing.displayName })] })
    { totalCost := 0, byModel := [] }

/-- An entry is economically valid: all four per-million rates are positive
rationals (in particular, numeric). -/
def validEntry (e : PricingEntry) : Prop :=
  0 < e.input ∧ 0 < e.output ∧ 0 < e.cacheRead ∧ 0 < e.cacheWrite

instance : DecidablePred validEntry := fun e => by
  unfold validEntry; infer_instance

/-- Every output `getPricing` can produce: the five table entries, the two
inferred entries, and the fallback. -/
def pricingOutputs : List PricingEntry :=
  MODEL_PRICING.map Prod.snd ++ [OPUS_INFERRED, HAIKU_INFERRED, FALLBACK_PRICING]

/-- C4: pricing resolution totality — for every string `modelId` (including
the empty string and nonsense strings) `getPricing` returns a valid
`PricingEntry` with positive numeric per-million rates, and it follows the
ladder: exact table match first, then prefix match, then the opus/haiku
substring heuristic, then the Sonnet-tier "Unknown Model" fallback. -/
theorem getPricing_total_ladder :
    (∀ m : String, getPricing m ∈ pricingOutputs ∧ validEntry (getPricing m))
    ∧ (∀ p ∈ MODEL_PRICING, getPricing p.1 = p.2)
    ∧ getPricing "claude-opus-4-6-20260101" =
        { input := 15, output := 75, cacheRead := 3/2, cacheWrite := 75/4,
          displayName := "Claude Opus 4.6" }
    ∧ getPricing "experimental-opus-next" = OPUS_INFERRED
    ∧ getPricing "experimental-haiku-next" = HAIKU_INFERRED
    ∧ getPricing "" = FALLBACK_PRICING
    ∧ getPricing "complete-nonsense-model" = FALLBACK_PRICING
    ∧ (FALLBACK_PRICING.displayName = "Unknown Model"
        ∧ FALLBACK_PRICING.input = 3 ∧ FALLBACK_PRICING.output = 15
        ∧ FALLBACK_PRICING.cacheRead = 3/10 ∧ FALLBACK_PRICING.cacheWrite = 15/4) := by
  have hvalid : ∀ e ∈ pricingOutputs, validEntry e := by
    intro e he
    fin_cases he <;> norm_num [validEntry, OPUS_INFERRED, HAIKU_INFERRED, FALLBACK_PRICING]
  have hexact : ∀ p ∈ MODEL_PRICING, getPricing p.1 = p.2 := by
    intro p hp
    fin_cases hp <;> rfl
  have hmem : ∀ m, getPricing m ∈ pricingOutputs := by
    intro m
    unfold getPricing
    split
    · next p hp =>
      exact List.mem_append_left _
        (List.mem_map_of_mem Prod.snd (List.mem_of_find?_eq_some hp))
    · split
      · next p hp =>
        exact List.mem_append_left _
          (List.mem_map_of_mem Prod.snd (List.mem_of_find?_eq_some hp))
      · split
        · exact List.mem_append_right _ (by simp)
        · split
          · exact List.mem_append_right _ (by simp)
          · exact List.mem_append_right _ (by simp)
  exact ⟨fun m => ⟨hmem m, hvalid _ (hmem m)⟩, hexact, rfl, rfl, rfl, rfl, rfl,
    rfl, by norm_num [FALLBACK_PRICING], by norm_num [FALLBACK_PRICING],
    by norm_num [FALLBACK_PRICING], by norm_num [FALLBACK_PRICING]⟩

/-- C5: `calculateCost` returns a `totalCost` equal to the sum, over the four
token counters (absent counters defaulting to 0), of
`(counter / 1,000,000) × resolved per-million rate`; and any usage whose four
defaulted counters are all zero has `totalCost = 0` for every model id.
(The function is a pure Lean definition, hence deterministic and total.) -/
theorem calculateCost_formula :
    (∀ (u : TokenUsage) (m : String),
      (calculateCost u m).totalCost =
        (orZero u.inputTokens : ℚ) / 1000000 * (getPricing m).input
        + (orZero u.outputTokens : ℚ) / 1000000 * (getPricing m).output
        + (orZero u.cacheReadInputTokens : ℚ) / 1000000 * (getPricing m).cacheRead
        + (orZero u.cacheCreationInputTokens : ℚ) / 1000000 * (getPricing m).cacheWrite)
    ∧ (∀ (u : TokenUsage) (m : String),
        orZero u.inputTokens = 0 → orZero u.outputTokens = 0 →
        orZero u.cacheReadInputTokens = 0 → orZero u.cacheCreationInputTokens = 0 →
        (calculateCost u m).totalCost = 0) := by
  constructor
  · intro u m; rfl
  · intro u m h1 h2 h3 h4
    simp [calculateCost, h1, h2, h3, h4]

/-- Witness for the zero-usage conjunct of `calculateCost_formula`: the
all-absent usage (every counter defaulting to 0) costs 0 for a concrete
model id. -/
theorem calculateCost_formula_witness :
    (calculateCost {} "claude-opus-4-6").totalCost = 0 :=
  calculateCost_formula.2 {} "claude-opus-4-6" rfl rfl rfl rfl

/-! ## Security engine — `src/analysis/security.js`

The `BASH_CATEGORIES` patterns are JavaScript regular expressions; each is
translated below into an executable matcher over character lists. `\w` is
`[A-Za-z0-9_]`, `\b` a word boundary, `\s` whitespace (the ASCII whitespace
characters; the commands under audit are ASCII). `RegExp.test` succeeds if
the pattern matches starting at any position of the string. -/

/-- JS `\w`: ASCII letter, digit or underscore. -/
def isWordChar (c : Char) : Bool :=
  ('a' ≤ c && c ≤ 'z') || ('A' ≤ c && c ≤ 'Z') || ('0' ≤ c && c ≤ '9') || c = '_'

/-- JS `\s` (ASCII range): space, tab, newline, carriage return, vertical
tab, form feed. -/
def isSpaceChar (c : Char) : Bool :=
  c = ' ' || c = '\t' || c = '\n' || c = '\r' || c = '\x0b' || c = '\x0c'

/-- `\b` immediately before a word character: holds at the string start or
after a non-word character. -/
def boundaryBeforeWord (prev : Option Char) : Bool :=
  match prev with
  | none => true
  | some c => !isWordChar c

/-- `\b` immediately after a word character: holds at the string end or
before a non-word character. -/
def wordEndBoundary : List Char → Bool
  | [] => true
  | c :: _ => !isWordChar c

/-- Consume an exact literal, returning the remaining input. -/
def litCh : List Char → List Char → Option (List Char)
  | [], cs => some cs
  | p :: ps, c :: cs => if c = p then litCh ps cs else none
  | _ :: _, [] => none

def seqLit (s : String) (cs : List Char) : Option (List Char) := litCh s.data cs

/-- Consume a single `\s`. -/
def spCh : List Char → Option (List Char)
  | c :: rest => if isSpaceChar c then some rest else none
  | [] => none

/-- Consume `\s+` (greedy; every use in the source patterns is followed by a
non-space literal, so maximal munch is exact). -/
def sp1 : List Char → Option (List Char)
  | c :: rest => if isSpaceChar c then some (rest.dropWhile isSpaceChar) else none
  | [] => none

/-- Consume a literal whose last character is a word character, then require
a trailing `\b`. -/
def litB (s : String) (cs : List Char) : Bool :=
  match seqLit s cs with
  | some r => wordEndBoundary r
  | none => false

/-- `word1\s+word2` followed by `\b`. -/
def twoWordB (w1 w2 : String) (cs : List Char) : Bool :=
  match (seqLit w1 cs).bind sp1 with
  | some r => litB w2 r
  | none => false

/-- `/\bsudo\s/` at a position. -/
def sudoAt (prev : Option Char) (cs : List Char) : Bool :=
  boundaryBeforeWord prev && ((seqLit "sudo" cs).bind spCh).isSome

/-- `/\b(rm\s|rmdir|git\s+reset\s+--hard|git\s+clean|git\s+checkout\s+\.)/`
at a position. -/
def destructiveAt (prev : Option Char) (cs : List Char) : Bool :=
  boundaryBeforeWord prev &&
    ( ((seqLit "rm" cs).bind spCh).isSome
      || (seqLit "rmdir" cs).isSome
      || (((((seqLit "git" cs).bind sp1).bind (seqLit "reset")).bind sp1).bind (seqLit "--hard")).isSome
      || (((seqLit "git" cs).bind sp1).bind (seqLit "clean")).isSome
      || (((((seqLit "git" cs).bind sp1).bind (seqLit "checkout")).bind sp1).bind (seqLit ".")).isSome )

/-- `/\b(chmod|chown|chgrp)\b/` at a position. -/
def permissionsAt (prev : Option Char) (cs : List Char) : Bool :=
  boundaryBeforeWord prev && (litB "chmod" cs || litB "chown" cs || litB "chgrp" cs)

/-- `ssh\s` (or `scp\s`) followed by the group's trailing `\b`: after the
whitespace (a non-word character), the boundary requires a following word
character. -/
def shWordAfterSpace (w : String) (cs : List Char) : Bool :=
  match seqLit w cs with
  | some (c :: c' :: _) => isSpaceChar c && isWordChar c'
  | _ => false

/-- `/\b(curl|wget|ssh\s|scp\s|git\s+push|git\s+clone|git\s+fetch|git\s+pull)\b/`
at a position. -/
def networkAt (prev : Option Char) (cs : List Char) : Bool :=
  boundaryBeforeWord prev &&
    ( litB "curl" cs || litB "wget" cs
      || shWordAfterSpace "ssh" cs || shWordAfterSpace "scp" cs
      || twoWordB "git" "push" cs || twoWordB "git" "clone" cs
      || twoWordB "git" "fetch" cs || twoWordB "git" "pull" cs )

/-- `/\b(npm\s+install|yarn\s+add|pip\s+install|cargo\s+install|brew\s+install|apt\s+install|apt-get\s+install)\b/`
at a position. -/
def packageManagersAt (prev : Option Char) (cs : List Char) : Bool :=
  boundaryBeforeWord prev &&
    ( twoWordB "npm" "install" cs || twoWordB "yarn" "add" cs
      || twoWordB "pip" "install" cs || twoWordB "cargo" "install" cs
      || twoWordB "brew" "install" cs || twoWordB "apt" "install" cs
      || twoWordB "apt-get" "install" cs )

/-- Try the position matcher at every position of the input, tracking the
previous character for word boundaries (the semantics of `RegExp.test`). -/
def searchFrom (m : Option Char → List Char → Bool) : Option Char → List Char → Bool
  | prev, [] => m prev []
  | prev, c :: cs => m prev (c :: cs) || searchFrom m (some c) cs

def regexTest (m : Option Char → List Char → Bool) (s : String) : Bool :=
  searchFrom m none s.data

def testSudo (s : String) : Bool := regexTest sudoAt s
def testDestructive (s : String) : Bool := regexTest destructiveAt s
def testPermissions (s : String) : Bool := regexTest permissionsAt s
def testNetwork (s : String) : Bool := regexTest networkAt s
def testPackageManagers (s : String) : Bool := regexTest packageManagersAt s

/-- `BASH_CATEGORIES` — `security.js` lines 38–44, in declaration order
(the order `Object.entries` iterates in `classifyBashCommand`). -/
def BASH_CATEGORIES : List (String × (String → Bool)) :=
  [ ("sudo", testSudo),
    ("destructive", testDestructive),
    ("permissions", testPermissions),
    ("network", testNetwork),
    ("packageManagers", testPackageManagers) ]

/-- `classifyBashCommand(command)` — `security.js` lines 51–57: a falsy
command (null/undefined/empty) is `safe`; otherwise the first matching
category in `BASH_CATEGORIES` order, else `safe`. -/
def classifyBashCommand (command : Option String) : String :=
  match command with
  | none => "safe"
  | some cmd =>
    if cmd = "" then "safe"
    else
      match BASH_CATEGORIES.find? (fun p => p.2 cmd) with
      | some p => p.1
      | none => "safe"

/-- C8: bash classification precedence — `classifyBashCommand` returns the
first category whose pattern matches, in the fixed order sudo, destructive,
permissions, network, packageManagers, and `"safe"` when none matches; in
particular `"sudo rm -rf /tmp"` classifies as `"sudo"` even though the
destructive pattern also matches it. -/
theorem classifyBashCommand_precedence :
    (∀ cmd : String,
      classifyBashCommand (some cmd) =
        if cmd = "" then "safe"
        else if testSudo cmd then "sudo"
        else if testDestructive cmd then "destructive"
        else if testPermissions cmd then "permissions"
        else if testNetwork cmd then "network"
        else if testPackageManagers cmd then "packageManagers"
        else "safe")
    ∧ classifyBashCommand (some "sudo rm -rf /tmp") = "sudo"
    ∧ testDestructive "sudo rm -rf /tmp" = true
    ∧ classifyBashCommand none = "safe"
    ∧ classifyBashCommand (some "") = "safe"
    ∧ classifyBashCommand (some "ls -la") = "safe" := by
  refine ⟨fun cmd => ?_, by decide, by decide, rfl, by decide, by decide⟩
  by_cases hc : cmd = ""
  · simp [classifyBashCommand, hc]
  · cases h1 : testSudo cmd <;> cases h2 : testDestructive cmd <;>
      cases h3 : testPermissions cmd <;> cases h4 : testNetwork cmd <;>
      cases h5 : testPackageManagers cmd <;>
      simp [classifyBashCommand, BASH_CATEGORIES, List.find?, hc, h1, h2, h3, h4, h5]

/-- Per-session counters fed to `detectAnomalies` (built in
`getSecurityAudit`, `security.js` lines 287–293). -/
structure SessionStat where
  sessionId : String
  projectPath : Option String := none
  date : Option String := none
  destructiveCount : Nat := 0
  writeCount : Nat := 0
deriving DecidableEq

/-- A flag pushed by `detectAnomalies`; the source renders it as a message
string (count and one-decimal average) — the data, not the formatting, is
modelled. -/
inductive AnomalyFlag where
  | destructive (count : Nat) (avg : ℚ)
  | writes (count : Nat) (avg : ℚ)
deriving DecidableEq

/-- An anomaly record (`security.js` lines 130–135). -/
structure Anomaly where
  sessionId : String
  projectPath : Option String
  date : Option String
  flags : List AnomalyFlag
deriving DecidableEq

/-- Leave-one-out average of destructive-command counts
(`security.js` line 119): `(totalDestructive - sess.destructiveCount) / (n - 1)`. -/
def looAvgDestructive (stats : List SessionStat) (s : SessionStat) : ℚ :=
  (((stats.map (·.destructiveCount)).sum : ℚ) - (s.destructiveCount : ℚ))
    / ((stats.length : ℚ) - 1)

/-- Leave-one-out average of write-operation counts (`security.js` line 120). -/
def looAvgWrites (stats : List SessionStat) (s : SessionStat) : ℚ :=
  (((stats.map (·.writeCount)).sum : ℚ) - (s.writeCount : ℚ))
    / ((stats.length : ℚ) - 1)

/-- The flag list built for one session (`security.js` lines 122–128);
threshold is 3. -/
def anomalyFlagsFor (stats : List SessionStat) (s : SessionStat) : List AnomalyFlag :=
  (if 0 < looAvgDestructive stats s
      ∧ looAvgDestructive stats s * 3 < (s.destructiveCount : ℚ)
   then [AnomalyFlag.destructive s.destructiveCount (looAvgDestructive stats s)] else [])
  ++ (if 0 < looAvgWrites stats s
        ∧ looAvgWrites stats s * 3 < (s.writeCount : ℚ)
      then [AnomalyFlag.writes s.writeCount (looAvgWrites stats s)] else [])

/-- `detectAnomalies(sessionStats)` — `security.js` lines 107–139: fewer than
3 sessions yields `[]`; otherwise each session whose flag list is nonempty
contributes an anomaly record, in input order. -/
def detectAnomalies (sessionStats : List SessionStat) : List Anomaly :=
  if sessionStats.length < 3 then []
  else
    sessionStats.filterMap (fun sess =>
      let flags := anomalyFlagsFor sessionStats sess
      if flags.isEmpty then none
      else some { sessionId := sess.sessionId, projectPath := sess.projectPath,
                  date := sess.date, flags := flags })

/-- The claim's flagging condition: for destructive or write counts, the
leave-one-out average over the other sessions is strictly positive and the
session's own count exceeds 3 times it. -/
def anomalousIn (stats : List SessionStat) (s : SessionStat) : Prop :=
  (0 < looAvgDestructive stats s
    ∧ looAvgDestructive stats s * 3 < (s.destructiveCount : ℚ))
  ∨ (0 < looAvgWrites stats s
      ∧ looAvgWrites stats s * 3 < (s.writeCount : ℚ))

instance (stats : List SessionStat) : DecidablePred (anomalousIn stats) := fun s => by
  unfold anomalousIn; infer_instance

theorem filterMap_eq_map_filter_of_if {α β : Type} (p : α → Bool) (f : α → β)
    (g : α → Option β) (hg : ∀ a, g a = if p a then some (f a) else none) :
    ∀ l : List α, l.filterMap g = (l.filter p).map f := by
  intro l
  induction l with
  | nil => simp
  | cons a t ih =>
    rw [List.filterMap_cons, List.filter_cons, hg a]
    cases hp : p a <;> simp [hp, ih]

theorem anomalyFlagsFor_isEmpty (stats : List SessionStat) (s : SessionStat) :
    (anomalyFlagsFor stats s).isEmpty = !(decide (anomalousIn stats s)) := by
  by_cases h1 : 0 < looAvgDestructive stats s
      ∧ looAvgDestructive stats s * 3 < (s.destructiveCount : ℚ) <;>
    by_cases h2 : 0 < looAvgWrites stats s
        ∧ looAvgWrites stats s * 3 < (s.writeCount : ℚ) <;>
    simp [anomalyFlagsFor, anomalousIn, h1, h2]

theorem detectAnomalies_eq_filter (stats : List SessionStat)
    (h : ¬ stats.length < 3) :
    detectAnomalies stats =
      (stats.filter (fun s => decide (anomalousIn stats s))).map
        (fun s => { sessionId := s.sessionId, projectPath := s.projectPath,
                    date := s.date, flags := anomalyFlagsFor stats s }) := by
  unfold detectAnomalies
  rw [if_neg h]
  refine filterMap_eq_map_filter_of_if _ _ _ (fun a => ?_) stats
  show (if (anomalyFlagsFor stats a).isEmpty then none else some _) = _
  rw [anomalyFlagsFor_isEmpty]
  cases hd : decide (anomalousIn stats a) <;> simp

theorem looAvgDestructive_uniform (stats : List SessionStat) (d : Nat)
    (hlen : 3 ≤ stats.length) (hall : ∀ s ∈ stats, s.destructiveCount = d) :
    ∀ s ∈ stats, looAvgDestructive stats s = (d : ℚ) := by
  intro s hs
  have hm : stats.map (fun x => (x.destructiveCount : ℚ)) =
      List.replicate stats.length (d : ℚ) := by
    refine List.eq_replicate_iff.mpr ⟨by simp, ?_⟩
    intro b hb
    obtain ⟨t, ht, rfl⟩ := List.mem_map.mp hb
    exact_mod_cast congrArg Nat.cast (hall t ht)
  have hk3 : (3 : ℚ) ≤ (stats.length : ℚ) := by exact_mod_cast hlen
  have hk : (stats.length : ℚ) - 1 ≠ 0 := by linarith
  rw [looAvgDestructive, hm, List.sum_replicate, nsmul_eq_mul, hall s hs]
  rw [show ((stats.length : ℚ) * d - d) = (d : ℚ) * ((stats.length : ℚ) - 1) by ring]
  exact mul_div_cancel_right₀ _ hk

theorem looAvgWrites_uniform (stats : List SessionStat) (w : Nat)
    (hlen : 3 ≤ stats.length) (hall : ∀ s ∈ stats, s.writeCount = w) :
    ∀ s ∈ stats, looAvgWrites stats s = (w : ℚ) := by
  intro s hs
  have hm : stats.map (fun x => (x.writeCount : ℚ)) =
      List.replicate stats.length (w : ℚ) := by
    refine List.eq_replicate_iff.mpr ⟨by simp, ?_⟩
    intro b hb
    obtain ⟨t, ht, rfl⟩ := List.mem_map.mp hb
    exact_mod_cast congrArg Nat.cast (hall t ht)
  have hk3 : (3 : ℚ) ≤ (stats.length : ℚ) := by exact_mod_cast hlen
  have hk : (stats.length : ℚ) - 1 ≠ 0 := by linarith
  rw [looAvgWrites, hm, List.sum_replicate, nsmul_eq_mul, hall s hs]
  rw [show ((stats.length : ℚ) * w - w) = (w : ℚ) * ((stats.length : ℚ) - 1) by ring]
  exact mul_div_cancel_right₀ _ hk

/-- C6: anomaly-detection baseline — fewer than 3 sessions yields no
anomalies; 3 or more sessions with identical destructive and write counts
yield no anomalies; and in general (with at least 3 sessions) exactly the
sessions satisfying `anomalousIn` — leave-one-out average strictly positive
and own count above 3× it, for either counter — are flagged, in order. -/
theorem detectAnomalies_baseline :
    (∀ stats : List SessionStat, stats.length < 3 → detectAnomalies stats = [])
    ∧ (∀ (stats : List SessionStat) (d w : Nat), 3 ≤ stats.length →
        (∀ s ∈ stats, s.destructiveCount = d ∧ s.writeCount = w) →
        detectAnomalies stats = [])
    ∧ (∀ stats : List SessionStat, 3 ≤ stats.length →
        detectAnomalies stats =
          (stats.filter (fun s => decide (anomalousIn stats s))).map
            (fun s => { sessionId := s.sessionId, projectPath := s.projectPath,
                        date := s.date, flags := anomalyFlagsFor stats s })) := by
  refine ⟨fun stats h => by simp [detectAnomalies, h], ?_, fun stats h =>
    detectAnomalies_eq_filter stats (by omega)⟩
  intro stats d w hlen hall
  rw [detectAnomalies_eq_filter stats (by omega)]
  have hfil : stats.filter (fun s => decide (anomalousIn stats s)) = [] := by
    rw [List.filter_eq_nil_iff]
    intro s hs
    have hd := looAvgDestructive_uniform stats d hlen (fun t ht => (hall t ht).1) s hs
    have hw := looAvgWrites_uniform stats w hlen (fun t ht => (hall t ht).2) s hs
    simp only [anomalousIn, hd, hw, (hall s hs).1, (hall s hs).2, decide_eq_true_eq]
    rintro (⟨h0, h3⟩ | ⟨h0, h3⟩) <;> nlinarith
  rw [hfil]
  rfl

/-- Witness for `detectAnomalies_baseline`: a two-session list is below the
baseline, and three identical sessions produce no anomalies. -/
theorem detectAnomalies_baseline_witness :
    detectAnomalies [{ sessionId := "a", destructiveCount := 9 },
                     { sessionId := "b" }] = []
    ∧ detectAnomalies [{ sessionId := "a", destructiveCount := 2, writeCount := 5 },
                       { sessionId := "b", destructiveCount := 2, writeCount := 5 },
                       { sessionId := "c", destructiveCount := 2, writeCount := 5 }] = []
    ∧ detectAnomalies [{ sessionId := "a" }, { sessionId := "b" }, { sessionId := "c" }] =
        (([{ sessionId := "a" }, { sessionId := "b" },
           { sessionId := "c" }] : List SessionStat).filter
          (fun s => decide (anomalousIn [{ sessionId := "a" }, { sessionId := "b" },
            { sessionId := "c" }] s))).map
          (fun s => { sessionId := s.sessionId, projectPath := s.projectPath,
                      date := s.date,
                      flags := anomalyFlagsFor [{ sessionId := "a" }, { sessionId := "b" },
                        { sessionId := "c" }] s }) :=
  ⟨detectAnomalies_baseline.1 _ (by decide),
   detectAnomalies_baseline.2.1 _ 2 5 (by decide) (by decide),
   detectAnomalies_baseline.2.2 _ (by decide)⟩

/-! ## Session log parser — `src/data/session-parser.js`

The parser reads a JSONL file line by line; a line either fails
`JSON.parse` (and is skipped) or yields an event object. The input is
modelled as the list of per-line parse outcomes. Timestamps are modelled as
their epoch-millisecond values (the result of `new Date(ts).getTime()`); an
absent or empty `timestamp` field is `none`. -/

/-- Raw `usage` counter names as they appear in the log. -/
structure RawUsage where
  input_tokens : Option Nat := none
  output_tokens : Option Nat := none
  cache_read_input_tokens : Option Nat := none
  cache_creation_input_tokens : Option Nat := none
deriving DecidableEq

/-- A tool invocation's `input` mapping, modelled on the keys the analysers
probe (`file_path`, `path`, `command`, `content`, `old_string`, `new_string`). -/
structure ToolInput where
  file_path : Option String := none
  path : Option String := none
  command : Option String := none
  content : Option String := none
  old_string : Option String := none
  new_string : Option String := none
deriving DecidableEq

/-- One item of a structured `content` array (text segment or tool use).
A literal `null` array element is dropped by every consumer's `c && ...`
guard and is therefore not modelled. -/
structure ContentBlock where
  type : Option String := none
  text : Option String := none
  name : Option String := none
  input : Option ToolInput := none
deriving DecidableEq

/-- A `message.content` value: plain string, structured array, or anything
else (absent/null/object). -/
inductive JsContent where
  | str (s : String)
  | arr (blocks : List ContentBlock)
  | other
deriving DecidableEq

structure EventMessage where
  model : Option String := none
  usage : Option RawUsage := none
  content : JsContent := JsContent.other
deriving DecidableEq

/-- One successfully JSON-decoded log line. The log format also carries a
`permissionMode` field (spec §2: session metadata includes the permission
mode); it is part of the event model so that theorems can state what the
parser does with it. -/
structure Event where
  type : Option String := none
  sessionId : Option String := none
  cwd : Option String := none
  gitBranch : Option String := none
  timestamp : Option Int := none
  isMeta : Bool := false
  message : Option EventMessage := none
  permissionMode : Option String := none
deriving DecidableEq

inductive LogLine where
  | malformed
  | event (e : Event)
deriving DecidableEq

structure ToolCall where
  name : Option String
  input : ToolInput
deriving DecidableEq

/-- A parsed message pushed by `parseSessionFile`
(`session-parser.js` lines 31–63). -/
inductive ParsedMessage where
  | assistant (model : Option String) (usage : Option Counters)
      (toolCalls : List ToolCall) (timestamp : Option Int)
  | user (promptText : String) (timestamp : Option Int)
deriving DecidableEq

/-- `extractToolCalls(content)` — `session-parser.js` lines 83–91. -/
def extractToolCalls (content : JsContent) : List ToolCall :=
  match content with
  | .arr blocks =>
    (blocks.filter (fun c => c.type == some "tool_use")).map
      (fun c => { name := c.name, input := c.input.getD {} })
  | _ => []

/-- The user-prompt text before tag stripping
(`session-parser.js` lines 46–55). -/
def userPromptRaw (content : JsContent) : String :=
  match content with
  | .str s => s
  | .arr blocks =>
    String.intercalate " "
      ((blocks.filter (fun c => c.type == some "text")).map (fun c => c.text.getD ""))
  | .other => ""

/-- `promptText.replace(/<[^>]+>/g, '')` — remove every span from a `<` to
the first following `>` with at least one character between them. -/
def stripTagsAux : List Char → List Char
  | [] => []
  | c :: rest =>
    if c = '<' then
      match h : rest.dropWhile (fun x => x ≠ '>') with
      | '>' :: rest' =>
        if (rest.takeWhile (fun x => x ≠ '>')).isEmpty then
          c :: stripTagsAux rest
        else stripTagsAux rest'
      | _ => c :: rest
    else c :: stripTagsAux rest
termination_by cs => cs.length
decreasing_by
  · simp only [List.length_cons]; omega
  · rename_i tl hc hnemp
    have h2 := congrArg List.length h
    have h3 := (List.dropWhile_sublist (p := fun x => decide (x ≠ '>')) (l := tl)).length_le
    simp only [List.length_cons] at *
    omega
  · simp only [List.length_cons]; omega

def stripTags (s : String) : String := ⟨stripTagsAux s.data⟩

/-- JS `String.prototype.trim` (ASCII whitespace). -/
def jsTrim (s : String) : String :=
  ⟨((s.data.dropWhile isSpaceChar).reverse.dropWhile isSpaceChar).reverse⟩

/-- JS truthiness of a possibly-absent string (absent, null and `""` are
falsy). -/
def jsTruthyStr : Option String → Bool
  | some s => s ≠ ""
  | none => false

/-- JS falsiness of a numeric timestamp slot (`!firstTimestamp`): absent or
zero. -/
def jsFalsyTime : Option Int → Bool
  | none => true
  | some t => t = 0

/-- Map raw usage counter names to the canonical shape, defaulting each to 0
(`session-parser.js` lines 36–41). -/
def usageOfRaw (u : RawUsage) : Counters :=
  { inputTokens := orZero u.input_tokens,
    outputTokens := orZero u.output_tokens,
    cacheReadInputTokens := orZero u.cache_read_input_tokens,
    cacheCreationInputTokens := orZero u.cache_creation_input_tokens }

/-- Running parser state (`session-parser.js` lines 6–11). -/
structure ParseAcc where
  messages : List ParsedMessage := []
  sessionId : Option String := none
  projectPath : Option String := none
  gitBranch : Option String := none
  firstTimestamp : Option Int := none
  lastTimestamp : Option Int := none
deriving DecidableEq

/-- Process one log line (`session-parser.js` lines 16–67): malformed lines
are skipped; first truthy `sessionId`/`cwd`/`gitBranch` wins; running
min/max timestamp (a stored 0 counts as unset, as under JS truthiness);
`assistant` and non-meta `user` events append a message. -/
def parseLine (acc : ParseAcc) (line : LogLine) : ParseAcc :=
  match line with
  | .malformed => acc
  | .event obj =>
    let acc := if !jsTruthyStr acc.sessionId && jsTruthyStr obj.sessionId then
        { acc with sessionId := obj.sessionId } else acc
    let acc := if !jsTruthyStr acc.projectPath && jsTruthyStr obj.cwd then
        { acc with projectPath := obj.cwd } else acc
    let acc := if !jsTruthyStr acc.gitBranch && jsTruthyStr obj.gitBranch then
        { acc with gitBranch := obj.gitBranch } else acc
    let acc := match obj.timestamp with
      | some ts =>
        { acc with
          firstTimestamp :=
            if jsFalsyTime acc.firstTimestamp ∨ ts < acc.firstTimestamp.getD 0 then some ts
            else acc.firstTimestamp,
          lastTimestamp :=
            if jsFalsyTime acc.lastTimestamp ∨ ts > acc.lastTimestamp.getD 0 then some ts
            else acc.lastTimestamp }
      | none => acc
    match obj.type, obj.message with
    | some "assistant", some msg =>
      { acc with messages := acc.messages ++
          [.assistant msg.model (msg.usage.map usageOfRaw)
            (extractToolCalls msg.content) obj.timestamp] }
    | some "user", some msg =>
      if obj.isMeta then acc
      else
        { acc with messages := acc.messages ++
            [.user (jsTrim (stripTags (userPromptRaw msg.content))) obj.timestamp] }
    | _, _ => acc

def msgIsAssistant : ParsedMessage → Bool
  | .assistant .. => true
  | _ => false

def msgIsUser : ParsedMessage → Bool
  | .user .. => true
  | _ => false

/-- The record returned by `parseSessionFile`
(`session-parser.js` lines 69–80): exactly these ten fields — in
particular, no `permissionMode`. -/
structure SessionRecord where
  sessionId : String
  projectPath : Option String
  gitBranch : Option String
  firstTimestamp : Option Int
  lastTimestamp : Option Int
  duration : Int
  messages : List ParsedMessage
  messageCount : Nat
  assistantMessages : List ParsedMessage
  userMessages : List ParsedMessage
deriving DecidableEq

/-- `parseSessionFile(filePath)` — `session-parser.js` lines 5–81, as a
function of the file's base name and its line-decode outcomes. -/
def parseSessionFile (fileBasename : String) (lines : List LogLine) : SessionRecord :=
  let st := lines.foldl parseLine {}
  { sessionId :=
      match st.sessionId with
      | some s => if s = "" then fileBasename else s
      | none => fileBasename,
    projectPath := st.projectPath,
    gitBranch := st.gitBranch,
    firstTimestamp := st.firstTimestamp,
    lastTimestamp := st.lastTimestamp,
    duration :=
      if !jsFalsyTime st.firstTimestamp && !jsFalsyTime st.lastTimestamp then
        st.lastTimestamp.getD 0 - st.firstTimestamp.getD 0
      else 0,
    messages := st.messages,
    messageCount := st.messages.length,
    assistantMessages := st.messages.filter msgIsAssistant,
    userMessages := st.messages.filter msgIsUser }

/-- The consumer's property read `session.permissionMode`
(`security.js` line 199). The object literal returned by `parseSessionFile`
(`session-parser.js` lines 69–80) has exactly the ten keys of
`SessionRecord` — `permissionMode` is not among them, so in JavaScript this
read yields `undefined` on every parsed record; modelled as `none`. -/
def SessionRecord.readPermissionMode (_r : SessionRecord) : Option String := none

/-- The denylist of `security.js` line 198. -/
def dangerousModes : List String := ["bypassPermissions", "fullAutoMode", "yolo"]

/-- `security.js` line 199:
`session.permissionMode && dangerousModes.has(session.permissionMode)`. -/
def isDangerousSession (r : SessionRecord) : Bool :=
  match r.readPermissionMode with
  | some m => m ≠ "" && dangerousModes.contains m
  | none => false

/-- The dangerous-session collection of `getSecurityAudit`
(`security.js` lines 277–285): the parsed sessions whose flag is set. -/
def dangerousSessionsOf (sessions : List SessionRecord) : List SessionRecord :=
  sessions.filter isDangerousSession

/-- C2 (code bug): `parseSessionFile` never extracts the permission mode —
its returned record carries no `permissionMode` field — so the read
`session.permissionMode` in `getSecurityAudit` is always undefined, the
dangerous flag is false for every parsed session, and `dangerousSessions`
is always empty; in particular a log whose events record
`permissionMode: "bypassPermissions"` is still not flagged. -/
theorem dangerousSessions_always_empty :
    (∀ (basename : String) (lines : List LogLine),
      isDangerousSession (parseSessionFile basename lines) = false)
    ∧ (∀ inputs : List (String × List LogLine),
        dangerousSessionsOf (inputs.map (fun i => parseSessionFile i.1 i.2)) = [])
    ∧ ((Event.mk (some "user") (some "sess-1") none none none false
          (some { content := JsContent.str "hello" })
          (some "bypassPermissions")).permissionMode = some "bypassPermissions"
        ∧ (parseSessionFile "sess-1"
            [.event (Event.mk (some "user") (some "sess-1") none none none false
              (some { content := JsContent.str "hello" })
              (some "bypassPermissions"))]).readPermissionMode = none
        ∧ isDangerousSession (parseSessionFile "sess-1"
            [.event (Event.mk (some "user") (some "sess-1") none none none false
              (some { content := JsContent.str "hello" })
              (some "bypassPermissions"))]) = false) := by
  refine ⟨fun _ _ => rfl, fun inputs => ?_, rfl, rfl, rfl⟩
  simp [dangerousSessionsOf, isDangerousSession, SessionRecord.readPermissionMode]

/-! ## Turn pairing — `pairMessages` (`session-parser.js` lines 143–166) -/

structure Turn where
  prompt : ParsedMessage
  responses : List ParsedMessage
  turnIndex : Nat
deriving DecidableEq

/-- The scan of `pairMessages`: each `user` message opens a turn whose
responses are the immediately following run of `assistant` messages; turns
with no responses are dropped; `turnIndex` is the number of turns kept so
far (`pairs.length` at push time). The JS loop advances one index at a
time, but the positions inside a collected response run are `assistant`
typed and open no turn, so the scan below is the same function. -/
def pairMessagesGo (k : Nat) : List ParsedMessage → List Turn
  | [] => []
  | m :: rest =>
    if msgIsUser m then
      let responses := rest.takeWhile msgIsAssistant
      if responses.isEmpty then pairMessagesGo k rest
      else { prompt := m, responses := responses, turnIndex := k } :: pairMessagesGo (k + 1) rest
    else pairMessagesGo k rest

/-- `pairMessages(session)` — operates on `session.messages`. -/
def pairMessages (session : SessionRecord) : List Turn :=
  pairMessagesGo 0 session.messages

theorem takeWhile_append_single_false {α : Type} (p : α → Bool) (x : α)
    (hx : p x = false) (l : List α) : (l ++ [x]).takeWhile p = l.takeWhile p := by
  induction l with
  | nil => simp [List.takeWhile_cons, hx]
  | cons a t ih => simp [List.takeWhile_cons, ih]

theorem pairMessagesGo_append_user (s : String) (t : Option Int) :
    ∀ (msgs : List ParsedMessage) (k : Nat),
      pairMessagesGo k (msgs ++ [.user s t]) = pairMessagesGo k msgs := by
  intro msgs
  induction msgs with
  | nil => intro k; simp [pairMessagesGo, msgIsUser]
  | cons m rest ih =>
    intro k
    simp only [List.cons_append, pairMessagesGo, List.append_eq]
    rw [takeWhile_append_single_false msgIsAssistant (.user s t) rfl rest]
    by_cases hu : msgIsUser m <;>
      by_cases he : (rest.takeWhile msgIsAssistant).isEmpty <;>
      simp [hu, he, ih]

theorem pairMessagesGo_responses_nonempty :
    ∀ (msgs : List ParsedMessage) (k : Nat) (turn : Turn),
      turn ∈ pairMessagesGo k msgs → turn.responses ≠ [] := by
  intro msgs
  induction msgs with
  | nil => intro k turn h; simp [pairMessagesGo] at h
  | cons m rest ih =>
    intro k turn h
    by_cases hu : msgIsUser m
    · by_cases he : (rest.takeWhile msgIsAssistant).isEmpty
      · simp only [pairMessagesGo, if_pos hu, if_pos he] at h
        exact ih k turn h
      · simp only [pairMessagesGo, if_pos hu, if_neg he, List.mem_cons] at h
        rcases h with rfl | h
        · simpa [List.isEmpty_iff] using he
        · exact ih (k + 1) turn h
    · simp only [pairMessagesGo, if_neg hu] at h
      exact ih k turn h

theorem pairMessagesGo_indexes :
    ∀ (msgs : List ParsedMessage) (k : Nat),
      (pairMessagesGo k msgs).map (fun turn => turn.turnIndex) =
        List.range' k (pairMessagesGo k msgs).length := by
  intro msgs
  induction msgs with
  | nil => intro k; rfl
  | cons m rest ih =>
    intro k
    by_cases hu : msgIsUser m
    · by_cases he : (rest.takeWhile msgIsAssistant).isEmpty
      · simp only [pairMessagesGo, if_pos hu, if_pos he]
        exact ih k
      · simp only [pairMessagesGo, if_pos hu, if_neg he, List.map_cons,
          List.length_cons, List.range'_succ]
        exact congrArg (List.cons k) (ih (k + 1))
    · simp only [pairMessagesGo, if_neg hu]
      exact ih k

/-- C9: turn pairing — `pairMessages` opens a turn at each user message with
the immediately following assistant messages as responses, drops turns with
no responses, and numbers kept turns 0-based; the scenario
[user a, assistant r1, assistant r2, user b] yields exactly one turn with
turnIndex 0 and responses [r1, r2], and a trailing unanswered user message
adds no turn. -/
theorem pairMessages_turns :
    (∀ session : SessionRecord, pairMessages session = pairMessagesGo 0 session.messages)
    ∧ (pairMessagesGo 0
        [ParsedMessage.user "a" none,
         ParsedMessage.assistant (some "m1") none [] none,
         ParsedMessage.assistant (some "m2") none [] none,
         ParsedMessage.user "b" none] =
       [{ prompt := ParsedMessage.user "a" none,
          responses := [ParsedMessage.assistant (some "m1") none [] none,
                        ParsedMessage.assistant (some "m2") none [] none],
          turnIndex := 0 }])
    ∧ (∀ (msgs : List ParsedMessage) (s : String) (t : Option Int),
        pairMessagesGo 0 (msgs ++ [.user s t]) = pairMessagesGo 0 msgs)
    ∧ (∀ (msgs : List ParsedMessage) (k : Nat),
        (pairMessagesGo k msgs).all (fun turn => !turn.responses.isEmpty) = true)
    ∧ (∀ msgs : List ParsedMessage,
        (pairMessagesGo 0 msgs).map (fun turn => turn.turnIndex) =
          List.range (pairMessagesGo 0 msgs).length) := by
  refine ⟨fun _ => rfl, by decide, fun msgs s t => pairMessagesGo_append_user s t msgs 0,
    fun msgs k => ?_, fun msgs => ?_⟩
  · rw [List.all_eq_true]
    intro turn ht
    simpa [List.isEmpty_iff] using pairMessagesGo_responses_nonempty msgs k turn ht
  · rw [pairMessagesGo_indexes msgs 0, List.range_eq_range']

/-! ## Overview aggregator — `src/analysis/overview.js`

The `Overview` model carries the fields the claims are about: total cost,
session/message/tool-call totals, active days, and the daily-activity
series. The presentation-derived fields of the source (`dailyCosts`,
`dailyTokens`, `modelBreakdown`, `tokenComposition`, `dateRange`, the
per-day averages, `hourCounts`, `longestSession`, `firstSessionDate`) are
not modelled; no claim refers to them and no modelled field depends on
them. `Array.prototype.sort` (a stable comparison sort) is modelled by a
stable insertion sort on the `localeCompare` order of date strings. -/

/-- One bucket of a daily-activity series. In a cache bucket
`toolCallCount` may be absent (`d.toolCallCount || 0`); buckets built from
sessions carry an explicit 0. -/
structure DailyActivityEntry where
  date : String
  messageCount : Nat := 0
  sessionCount : Nat := 0
  toolCallCount : Option Nat := none
  tokensByModel : List (String × Nat) := []
deriving DecidableEq

/-- The summary-cache file (`stats-cache.json`), restricted to the fields
the modelled paths read. -/
structure StatsCache where
  lastComputedDate : Option String := none
  dailyActivity : Option (List DailyActivityEntry) := none
  modelUsage : Option (List (String × TokenUsage)) := none
  totalSessions : Option Nat := none
  totalMessages : Option Nat := none
deriving DecidableEq

/-- `parseStatsCache(stats)` — `stats-parser.js` lines 1–17 (modelled
fields): defaults applied per the source (`|| []`, `|| {}`, `|| 0`). -/
structure ParsedStats where
  lastComputedDate : Option String
  dailyActivity : List DailyActivityEntry
  modelUsage : List (String × TokenUsage)
  totalSessions : Nat
  totalMessages : Nat
deriving DecidableEq

def parseStatsCache (stats : StatsCache) : ParsedStats :=
  { lastComputedDate := stats.lastComputedDate,
    dailyActivity := stats.dailyActivity.getD [],
    modelUsage := stats.modelUsage.getD [],
    totalSessions := orZero stats.totalSessions,
    totalMessages := orZero stats.totalMessages }

/-- A `SessionSummary` as consumed by the aggregator (`sessions.js`
lines 40–51), restricted to the fields the modelled paths read. -/
structure SessionSummary where
  sessionId : String
  date : Option String := none
  project : Option String := none
  messages : Option Nat := none
  duration : Option Int := none
  tokensByModel : Option (List (String × TokenUsage)) := none
deriving DecidableEq

structure Overview where
  totalCost : ℚ
  totalSessions : Nat
  totalMessages : Nat
  totalToolCalls : Nat
  activeDays : Nat
  dailyActivity : List DailyActivityEntry
  filtered : Bool := false
deriving DecidableEq

/-- `buildOverview`'s result: the explicit `{ error, empty: true }` object
when no cache exists, or an overview. -/
inductive OverviewResult where
  | noData
  | ok (o : Overview)
deriving DecidableEq

def OverviewResult.totalCostField : OverviewResult → Option ℚ
  | .noData => none
  | .ok o => some o.totalCost

/-- `buildFromStats(stats)` — `overview.js` lines 29–61 (modelled fields). -/
def buildFromStats (stats : StatsCache) : Overview :=
  let parsed := parseStatsCache stats
  let costResult := calculateTotalCost parsed.modelUsage
  { totalCost := costResult.totalCost,
    totalSessions := parsed.totalSessions,
    totalMessages := parsed.totalMessages,
    totalToolCalls := (parsed.dailyActivity.map (fun d => orZero d.toolCallCount)).sum,
    activeDays := parsed.dailyActivity.length,
    dailyActivity := parsed.dailyActivity }

/-- In-place update of a string-keyed object: mutate the entry for `k` if
present (first occurrence), else append `f dflt` (JS
`if (!m[k]) m[k] = init; f(m[k])` — insertion order preserved). -/
def updateAssoc {β : Type} : List (String × β) → String → β → (β → β) → List (String × β)
  | [], k, dflt, f => [(k, f dflt)]
  | (k', v) :: rest, k, dflt, f =>
    if k' = k then (k', f v) :: rest else (k', v) :: updateAssoc rest k dflt f

/-- Add a session's per-model usage into an accumulator
(`overview.js` lines 74–82; the identical loop appears at lines 211–219). -/
def addCounters (c : Counters) (u : TokenUsage) : Counters :=
  { inputTokens := c.inputTokens + orZero u.inputTokens,
    outputTokens := c.outputTokens + orZero u.outputTokens,
    cacheReadInputTokens := c.cacheReadInputTokens + orZero u.cacheReadInputTokens,
    cacheCreationInputTokens := c.cacheCreationInputTokens + orZero u.cacheCreationInputTokens }

def addSessionTokens (acc : List (String × Counters)) (s : SessionSummary) :
    List (String × Counters) :=
  (s.tokensByModel.getD []).foldl
    (fun acc e => updateAssoc acc e.1 {} (fun c => addCounters c e.2)) acc

def aggregateModelUsage (sessions : List SessionSummary) : List (String × Counters) :=
  sessions.foldl addSessionTokens []

/-- The fresh daily bucket of `overview.js` line 86 / line 224. -/
def emptyBucket (d : String) : DailyActivityEntry :=
  { date := d, messageCount := 0, sessionCount := 0, toolCallCount := some 0,
    tokensByModel := [] }

/-- Fold one session into its date bucket (`overview.js` lines 88–93 /
lines 226–231): add messages, count the session, add per-model output
tokens. -/
def bucketAddSession (s : SessionSummary) (b : DailyActivityEntry) : DailyActivityEntry :=
  { b with
    messageCount := b.messageCount + orZero s.messages,
    sessionCount := b.sessionCount + 1,
    tokensByModel := (s.tokensByModel.getD []).foldl
      (fun t e => updateAssoc t e.1 0 (fun n => n + orZero e.2.outputTokens))
      b.tokensByModel }

def addSessionDaily (m : List (String × DailyActivityEntry)) (s : SessionSummary) :
    List (String × DailyActivityEntry) :=
  match s.date with
  | some d => if d = "" then m else updateAssoc m d (emptyBucket d) (bucketAddSession s)
  | none => m

def dailyMapOf (sessions : List SessionSummary) : List (String × DailyActivityEntry) :=
  sessions.foldl addSessionDaily []

/-- Lexicographic order on code units — the semantics of JS `a < b` on
strings and of ascending `localeCompare` for the ASCII date strings the
aggregator compares. -/
def charListLt : List Char → List Char → Bool
  | [], [] => false
  | [], _ :: _ => true
  | _ :: _, [] => false
  | a :: as, b :: bs => if a < b then true else if b < a then false else charListLt as bs

def strLtB (a b : String) : Bool := charListLt a.data b.data

/-- Stable insertion by ascending date (the `sort((a, b) =>
a.date.localeCompare(b.date))` of `overview.js` line 106 / line 241). -/
def insertByDate (x : DailyActivityEntry) : List DailyActivityEntry → List DailyActivityEntry
  | [] => [x]
  | y :: ys => if strLtB x.date y.date then x :: y :: ys else y :: insertByDate x ys

def sortByDate (l : List DailyActivityEntry) : List DailyActivityEntry :=
  l.foldr insertByDate []

/-- `Object.values(dailyMap)` sorted by date. -/
def recentDailyOf (sessions : List SessionSummary) : List DailyActivityEntry :=
  sortByDate ((dailyMapOf sessions).map Prod.snd)

/-- The supplement's cost: `calculateTotalCost(recentModelUsage)`
(`overview.js` line 98). -/
def supplementCost (sessions : List SessionSummary) : TotalCostResult :=
  calculateTotalCost ((aggregateModelUsage sessions).map (fun e => (e.1, e.2.toUsage)))

/-- `supplementWithRecentSessions(base, stats, recentSessions)` —
`overview.js` lines 63–192, on the modelled fields. The source builds
`recentModelUsage`, `extraMessages` and `dailyMap` in one loop over the
sessions; the three accumulators are independent, so the separate folds
below compute the same values. Note line 107: the supplement's daily
buckets are *appended* to the cache's (`[...base.dailyActivity,
...recentDaily]`), and `activeDays` is recomputed as the length of that
concatenation (line 179). `totalToolCalls` is never updated. -/
def supplementWithRecentSessions (base : Overview) (_stats : StatsCache)
    (recentSessions : List SessionSummary) : Overview :=
  let recentCost := supplementCost recentSessions
  let extraMessages := (recentSessions.map (fun s => orZero s.messages)).sum
  let newDaily := base.dailyActivity ++ recentDailyOf recentSessions
  { base with
    totalCost := base.totalCost + recentCost.totalCost,
    totalMessages := base.totalMessages + extraMessages,
    totalSessions := base.totalSessions + recentSessions.length,
    dailyActivity := newDaily,
    activeDays := newDaily.length }

/-- `buildFromSessions(stats, sessions)` — `overview.js` lines 194–277
(modelled fields; the `stats` parameter is unused in the source body too).
`totalToolCalls` is the literal 0 of line 261; every daily bucket keeps the
`toolCallCount: 0` it was created with (line 224; the "approximate tool
calls" comment at line 228 notes they are skipped). -/
def buildFromSessions (_stats : StatsCache) (sessions : List SessionSummary) : Overview :=
  let modelUsage := aggregateModelUsage sessions
  let totalMessages := (sessions.map (fun s => orZero s.messages)).sum
  let dailyActivity := recentDailyOf sessions
  let costResult := calculateTotalCost (modelUsage.map (fun e => (e.1, e.2.toUsage)))
  { totalCost := costResult.totalCost,
    totalSessions := sessions.length,
    totalMessages := totalMessages,
    totalToolCalls := 0,
    activeDays := dailyActivity.length,
    dailyActivity := dailyActivity,
    filtered := true }

/-- Filter parameters (`{ from?, to?, project? }`); `buildOverview` only
tests the object's truthiness. -/
structure Filters where
  fromDate : Option String := none
  toDate : Option String := none
  project : Option String := none
deriving DecidableEq

/-- `buildOverview(stats, filters, sessions)` — `overview.js` lines 6–27. -/
def buildOverview (stats : Option StatsCache) (filters : Option Filters)
    (sessions : Option (List SessionSummary)) : OverviewResult :=
  match stats with
  | none => .noData
  | some st =>
    match filters, sessions with
    | some _, some ss => .ok (buildFromSessions st ss)
    | none, some ss =>
      if 0 < ss.length then .ok (supplementWithRecentSessions (buildFromStats st) st ss)
      else .ok (buildFromStats st)
    | _, none => .ok (buildFromStats st)

/-- The supplement selection of `printSummary` (`summary.js` line 15):
`allSessions.filter(s => s.date && s.date > stats.lastComputedDate)`. -/
def selectRecentSessions (lastComputedDate : String) (sessions : List SessionSummary) :
    List SessionSummary :=
  sessions.filter (fun s =>
    match s.date with
    | some d => d ≠ "" && strLtB lastComputedDate d
    | none => false)

theorem insertByDate_perm (x : DailyActivityEntry) :
    ∀ l : List DailyActivityEntry, (insertByDate x l).Perm (x :: l) := by
  intro l
  induction l with
  | nil => exact List.Perm.refl _
  | cons y ys ih =>
    unfold insertByDate
    by_cases hxy : strLtB x.date y.date = true
    · rw [if_pos hxy]
    · rw [if_neg hxy]
      exact (ih.cons y).trans (List.Perm.swap x y ys)

theorem sortByDate_perm : ∀ l, (sortByDate l).Perm l := by
  intro l
  induction l with
  | nil => exact List.Perm.refl _
  | cons x xs ih =>
    simp only [sortByDate, List.foldr_cons]
    exact (insertByDate_perm x _).trans (ih.cons x)

theorem updateAssoc_preserve {β : Type} (P : String × β → Prop)
    (k : String) (dflt : β) (f : β → β)
    (hf : ∀ v, P (k, v) → P (k, f v)) (hd : P (k, f dflt)) :
    ∀ xs : List (String × β), (∀ e ∈ xs, P e) → ∀ e ∈ updateAssoc xs k dflt f, P e := by
  intro xs
  induction xs with
  | nil =>
    intro _ e he
    simp only [updateAssoc, List.mem_singleton] at he
    subst he; exact hd
  | cons x rest ih =>
    intro hall e he
    obtain ⟨k', v⟩ := x
    unfold updateAssoc at he
    by_cases hk : k' = k
    · rw [if_pos hk] at he
      rcases List.mem_cons.mp he with rfl | hmem
      · subst hk; exact hf v (hall (k', v) (List.mem_cons_self _ _))
      · exact hall e (List.mem_cons_of_mem _ hmem)
    · rw [if_neg hk] at he
      rcases List.mem_cons.mp he with rfl | hmem
      · exact hall (k', v) (List.mem_cons_self _ _)
      · exact ih (fun e' he' => hall e' (List.mem_cons_of_mem _ he')) e hmem

theorem updateAssoc_keys {β : Type} (k : String) (dflt : β) (f : β → β) :
    ∀ xs : List (String × β),
      (updateAssoc xs k dflt f).map Prod.fst =
        if k ∈ xs.map Prod.fst then xs.map Prod.fst
        else xs.map Prod.fst ++ [k] := by
  intro xs
  induction xs with
  | nil => simp [updateAssoc]
  | cons x rest ih =>
    obtain ⟨k', v⟩ := x
    by_cases hk : k' = k
    · subst hk
      simp [updateAssoc]
    · simp only [updateAssoc, if_neg hk, List.map_cons, ih]
      by_cases hmem : k ∈ rest.map Prod.fst
      · simp [hmem, List.mem_cons, Ne.symm hk]
      · simp [hmem, List.mem_cons, Ne.symm hk]

theorem dailyMap_step_invariant (s : SessionSummary)
    (acc : List (String × DailyActivityEntry))
    (h1 : ∀ e ∈ acc, e.2.date = e.1 ∧ e.2.toolCallCount = some 0)
    (h2 : (acc.map Prod.fst).Nodup) :
    (∀ e ∈ addSessionDaily acc s, e.2.date = e.1 ∧ e.2.toolCallCount = some 0)
    ∧ ((addSessionDaily acc s).map Prod.fst).Nodup := by
  unfold addSessionDaily
  cases hdate : s.date with
  | none => exact ⟨h1, h2⟩
  | some d =>
    dsimp only
    by_cases hd0 : d = ""
    · rw [if_pos hd0]; exact ⟨h1, h2⟩
    · rw [if_neg hd0]
      constructor
      · refine updateAssoc_preserve _ d (emptyBucket d) (bucketAddSession s)
          (fun v hv => ?_) ⟨rfl, rfl⟩ acc h1
        exact ⟨hv.1, hv.2⟩
      · rw [updateAssoc_keys]
        by_cases hmem : d ∈ acc.map Prod.fst
        · rw [if_pos hmem]; exact h2
        · rw [if_neg hmem]
          simp [List.nodup_append, h2, hmem]

theorem dailyMapOf_invariant :
    ∀ (ss : List SessionSummary) (acc : List (String × DailyActivityEntry)),
      (∀ e ∈ acc, e.2.date = e.1 ∧ e.2.toolCallCount = some 0) →
      (acc.map Prod.fst).Nodup →
      ((∀ e ∈ ss.foldl addSessionDaily acc, e.2.date = e.1 ∧ e.2.toolCallCount = some 0)
        ∧ ((ss.foldl addSessionDaily acc).map Prod.fst).Nodup) := by
  intro ss
  induction ss with
  | nil => intro acc h1 h2; exact ⟨h1, h2⟩
  | cons s rest ih =>
    intro acc h1 h2
    simp only [List.foldl_cons]
    obtain ⟨h1', h2'⟩ := dailyMap_step_invariant s acc h1 h2
    exact ih _ h1' h2'

theorem recentDailyOf_dates_nodup (ss : List SessionSummary) :
    ((recentDailyOf ss).map (fun b => b.date)).Nodup
    ∧ (∀ b ∈ recentDailyOf ss, b.toolCallCount = some 0) := by
  obtain ⟨hinv, hkeys⟩ := dailyMapOf_invariant ss [] (by simp) (by simp)
  have hperm : ((recentDailyOf ss).map (fun b => b.date)).Perm
      (((dailyMapOf ss).map Prod.snd).map (fun b => b.date)) :=
    (sortByDate_perm _).map _
  have hdates : ((dailyMapOf ss).map Prod.snd).map (fun b => b.date) =
      (dailyMapOf ss).map Prod.fst := by
    rw [List.map_map]
    refine List.map_congr_left ?_
    intro e he
    exact (hinv e he).1
  constructor
  · rw [hperm.nodup_iff, hdates]; exact hkeys
  · intro b hb
    have hb' : b ∈ (dailyMapOf ss).map Prod.snd := (sortByDate_perm _).mem_iff.mp hb
    obtain ⟨e, he, rfl⟩ := List.mem_map.mp hb'
    exact (hinv e he).2

/-- C10 (implicit): on the filtered path, `buildOverview` delegates to
`buildFromSessions`, whose Overview always reports `totalToolCalls = 0` and
`toolCallCount = 0` in every daily-activity bucket, whatever the sessions
actually did. -/
theorem buildFromSessions_no_toolcalls :
    (∀ (st : StatsCache) (f : Filters) (ss : List SessionSummary),
      buildOverview (some st) (some f) (some ss) = .ok (buildFromSessions st ss))
    ∧ (∀ (st : StatsCache) (ss : List SessionSummary),
        (buildFromSessions st ss).totalToolCalls = 0)
    ∧ (∀ (st : StatsCache) (ss : List SessionSummary),
        ((buildFromSessions st ss).dailyActivity.all
          (fun b => b.toolCallCount == some 0)) = true) := by
  refine ⟨fun _ _ _ => rfl, fun _ _ => rfl, fun st ss => ?_⟩
  rw [List.all_eq_true]
  intro b hb
  have hdaily : (buildFromSessions st ss).dailyActivity = recentDailyOf ss := rfl
  rw [hdaily] at hb
  have hz := (recentDailyOf_dates_nodup ss).2 b hb
  simp [hz]

/-- A cache whose daily activity already contains a bucket dated after its
`lastComputedDate` (the data format does not forbid this). -/
def c3Stats : StatsCache :=
  { lastComputedDate := some "2026-01-01",
    dailyActivity := some [{ date := "2026-01-02", messageCount := 4, sessionCount := 1, toolCallCount := some 0 }] }

def c3Sessions : List SessionSummary :=
  [{ sessionId := "n1", date := some "2026-01-02", messages := some 2 }]

/-- Counterexample to C3 as stated: with the cache `c3Stats` (a bucket dated
2026-01-02) and a supplement session also dated 2026-01-02 (selected by the
`printSummary` filter, since it is after the last-computed date 2026-01-01),
the supplemented daily activity holds two buckets with the same date — the
supplement bucket is appended, not merged — and `activeDays = 2` exceeds the
number of distinct dates (1). -/
theorem supplement_daily_merge_counterexample :
    ((supplementWithRecentSessions (buildFromStats c3Stats) c3Stats
        (selectRecentSessions "2026-01-01" c3Sessions)).dailyActivity.map
        (fun b => b.date)) = ["2026-01-02", "2026-01-02"]
    ∧ ¬(((supplementWithRecentSessions (buildFromStats c3Stats) c3Stats
        (selectRecentSessions "2026-01-01" c3Sessions)).dailyActivity.map
        (fun b => b.date)).Nodup)
    ∧ (supplementWithRecentSessions (buildFromStats c3Stats) c3Stats
        (selectRecentSessions "2026-01-01" c3Sessions)).activeDays = 2
    ∧ (((supplementWithRecentSessions (buildFromStats c3Stats) c3Stats
        (selectRecentSessions "2026-01-01" c3Sessions)).dailyActivity.map
        (fun b => b.date)).dedup.length) = 1 := by
  exact ⟨by decide, by decide, by decide, by decide⟩

/-- C3 (amended): the supplement's own buckets are merged by date among the
supplement sessions (one bucket per distinct supplement date), but they are
*appended* after the cache's buckets, never merged into them; when no cache
bucket shares a date with a supplement bucket (as in the intended flow,
where cache dates are on/before the last-computed date and supplement
sessions strictly after it), the supplemented daily activity has at most
one bucket per distinct date and `activeDays` equals the number of distinct
dates. -/
theorem supplement_daily_append_amended :
    (∀ (st : StatsCache) (ss : List SessionSummary),
      (supplementWithRecentSessions (buildFromStats st) st ss).dailyActivity
        = (buildFromStats st).dailyActivity ++ recentDailyOf ss)
    ∧ (∀ ss : List SessionSummary, ((recentDailyOf ss).map (fun b => b.date)).Nodup)
    ∧ (∀ (st : StatsCache) (ss : List SessionSummary),
        ((buildFromStats st).dailyActivity.map (fun b => b.date)).Nodup →
        (∀ b ∈ (buildFromStats st).dailyActivity,
          ∀ c ∈ recentDailyOf ss, b.date ≠ c.date) →
        ((supplementWithRecentSessions (buildFromStats st) st ss).dailyActivity.map
            (fun b => b.date)).Nodup
          ∧ (supplementWithRecentSessions (buildFromStats st) st ss).activeDays
              = ((supplementWithRecentSessions (buildFromStats st) st ss).dailyActivity.map
                  (fun b => b.date)).dedup.length) := by
  refine ⟨fun _ _ => rfl, fun ss => (recentDailyOf_dates_nodup ss).1, fun st ss h1 h2 => ?_⟩
  have hnodup : (((buildFromStats st).dailyActivity ++ recentDailyOf ss).map
      (fun b => b.date)).Nodup := by
    rw [List.map_append, List.nodup_append]
    refine ⟨h1, (recentDailyOf_dates_nodup ss).1, ?_⟩
    intro a ha hb
    obtain ⟨b, hbmem, rfl⟩ := List.mem_map.mp ha
    obtain ⟨c, hcmem, hceq⟩ := List.mem_map.mp hb
    exact h2 b hbmem c hcmem hceq.symm
  refine ⟨hnodup, ?_⟩
  show ((buildFromStats st).dailyActivity ++ recentDailyOf ss).length = _
  have hdedup := List.Nodup.dedup hnodup
  calc ((buildFromStats st).dailyActivity ++ recentDailyOf ss).length
      = (((buildFromStats st).dailyActivity ++ recentDailyOf ss).map
          (fun b => b.date)).length := (List.length_map _ _).symm
    _ = (((buildFromStats st).dailyActivity ++ recentDailyOf ss).map
          (fun b => b.date)).dedup.length := by rw [hdedup]
    _ = _ := rfl

/-- A cache whose bucket dates are all on/before its `lastComputedDate`
(the intended shape), used to witness the amended C3. -/
def c3StatsDisjoint : StatsCache :=
  { lastComputedDate := some "2026-01-01",
    dailyActivity := some [{ date := "2026-01-01", messageCount := 4, sessionCount := 1, toolCallCount := some 0 }] }

/-- Witness for `supplement_daily_append_amended` at a concrete disjoint
input. -/
theorem supplement_daily_append_amended_witness :
    ((supplementWithRecentSessions (buildFromStats c3StatsDisjoint) c3StatsDisjoint
        c3Sessions).dailyActivity.map (fun b => b.date)).Nodup
    ∧ (supplementWithRecentSessions (buildFromStats c3StatsDisjoint) c3StatsDisjoint
        c3Sessions).activeDays
      = ((supplementWithRecentSessions (buildFromStats c3StatsDisjoint) c3StatsDisjoint
          c3Sessions).dailyActivity.map (fun b => b.date)).dedup.length :=
  supplement_daily_append_amended.2.2 c3StatsDisjoint c3Sessions (by decide) (by decide)

/-- C1: no double counting under supplementation — with a cache whose
`lastComputedDate` is `D` and the supplement list selected as in
`printSummary` (sessions dated strictly after `D`), every selected session
is dated strictly after `D`, and the supplemented Overview's total cost is
the cache-derived total cost plus the cost computed from only the after-`D`
sessions (`supplementCost`); when no session is after `D`, `printSummary`
passes `null` and the total cost is the cache-derived cost alone. -/
theorem buildOverview_supplement_no_double_count (st : StatsCache) (D : String)
    (hD : st.lastComputedDate = some D) (sessions : List SessionSummary) :
    (∀ s ∈ selectRecentSessions D sessions, ∃ d, s.date = some d ∧ strLtB D d = true)
    ∧ (buildOverview (some st) none
        (if 0 < (selectRecentSessions D sessions).length
         then some (selectRecentSessions D sessions) else none)).totalCostField =
      some ((buildFromStats st).totalCost
        + (supplementCost (selectRecentSessions D sessions)).totalCost) := by
  constructor
  · intro s hs
    rw [selectRecentSessions, List.mem_filter] at hs
    obtain ⟨-, hcond⟩ := hs
    cases hdate : s.date with
    | none => rw [hdate] at hcond; exact absurd hcond (by simp)
    | some d =>
      rw [hdate] at hcond
      simp only [Bool.and_eq_true] at hcond
      exact ⟨d, rfl, hcond.2⟩
  · by_cases h : 0 < (selectRecentSessions D sessions).length
    · rw [if_pos h]
      unfold buildOverview
      dsimp only
      rw [if_pos h]
      rfl
    · rw [if_neg h]
      have hemp : selectRecentSessions D sessions = [] := by
        cases hsel : selectRecentSessions D sessions with
        | nil => rfl
        | cons a t => rw [hsel] at h; simp at h
      rw [hemp]
      show some (buildFromStats st).totalCost
        = some ((buildFromStats st).totalCost + (supplementCost []).totalCost)
      have hzero : (supplementCost []).totalCost = 0 := rfl
      rw [hzero, add_zero]

/-- A stale cache: data through 2026-01-01. -/
def c1Stats : StatsCache :=
  { lastComputedDate := some "2026-01-01",
    dailyActivity := some [{ date := "2025-12-31", messageCount := 5, sessionCount := 1, toolCallCount := some 2 }],
    modelUsage := some [("claude-sonnet-4-6", { inputTokens := some 1000000 })],
    totalSessions := some 1,
    totalMessages := some 5 }

/-- A session list containing one session on/before the cache's last
computed date and one strictly after it. -/
def c1Sessions : List SessionSummary :=
  [ { sessionId := "old", date := some "2025-12-30", messages := some 3,
      tokensByModel := some [("claude-sonnet-4-6", { outputTokens := some 1000000 })] },
    { sessionId := "new", date := some "2026-01-02", messages := some 2,
      tokensByModel := some [("claude-sonnet-4-6", { inputTokens := some 2000000 })] } ]

/-- Witness for `buildOverview_supplement_no_double_count` at a concrete
stale cache and mixed session list. -/
theorem buildOverview_supplement_no_double_count_witness :
    (∀ s ∈ selectRecentSessions "2026-01-01" c1Sessions,
      ∃ d, s.date = some d ∧ strLtB "2026-01-01" d = true)
    ∧ (buildOverview (some c1Stats) none
        (if 0 < (selectRecentSessions "2026-01-01" c1Sessions).length
         then some (selectRecentSessions "2026-01-01" c1Sessions) else none)).totalCostField =
      some ((buildFromStats c1Stats).totalCost
        + (supplementCost (selectRecentSessions "2026-01-01" c1Sessions)).totalCost) :=
  buildOverview_supplement_no_double_count c1Stats "2026-01-01" rfl c1Sessions

/-! ## Session indexer — `getAllSessionIndexes` (`reader.js`)

A project directory holds an optional precomputed index (a list of entries
with session ids) and raw `.jsonl` log files. A log file is modelled by its
base name and the session id its content declares (if any); the probe
(`probeSessionFile`) is modelled as error-free — a filesystem read error
would drop the file entirely. Entry fields other than the session id and
the entry's provenance play no role in the de-duplication claim and are not
modelled. -/

structure SessFile where
  basename : String
  contentSessionId : Option String := none
deriving DecidableEq

structure ProjectDir where
  indexIds : Option (List String) := none
  files : List SessFile := []
deriving DecidableEq

structure IndexResultEntry where
  sessionId : String
  fromIndex : Bool
deriving DecidableEq

/-- The probed entry's id: `sessionId || path.basename(filePath, '.jsonl')`. -/
def probeId (f : SessFile) : String :=
  match f.contentSessionId with
  | some s => if s = "" then f.basename else s
  | none => f.basename

/-- The file loop of `getAllSessionIndexes` (`reader.js`): skip a file whose
base name is already seen, else record the base name as seen and push the
probed entry. Returns the final seen set and the pushed entries. -/
def goFiles (seen : List String) : List SessFile → List String × List IndexResultEntry
  | [] => (seen, [])
  | f :: fs =>
    if f.basename ∈ seen then goFiles seen fs
    else
      let r := goFiles (f.basename :: seen) fs
      (r.1, ⟨probeId f, false⟩ :: r.2)

/-- The directory loop: index entries are pushed unconditionally (their ids
added to seen), then undiscovered files are probed; the seen set carries
across directories. -/
def goDirs (seen : List String) : List ProjectDir → List IndexResultEntry
  | [] => []
  | d :: ds =>
    let idxIds := d.indexIds.getD []
    let fr := goFiles (seen ++ idxIds) d.files
    (idxIds.map (fun i => ⟨i, true⟩)) ++ fr.2 ++ goDirs fr.1 ds

/-- `getAllSessionIndexes()` — `reader.js` lines 130–169. -/
def getAllSessionIndexes (dirs : List ProjectDir) : List IndexResultEntry :=
  goDirs [] dirs

/-- Two projects whose indexes both list session id "a". -/
def c7Dirs : List ProjectDir :=
  [ { indexIds := some ["a"] }, { indexIds := some ["a"] } ]

/-- Counterexample to C7 as stated: index entries are appended without
consulting the seen set, so when two project indexes list the same session
id the result contains two entries for it — not "exactly one entry per
unique session id". -/
theorem getAllSessionIndexes_dup_counterexample :
    (getAllSessionIndexes c7Dirs).map (fun e => e.sessionId) = ["a", "a"]
    ∧ ¬((getAllSessionIndexes c7Dirs).map (fun e => e.sessionId)).Nodup
    ∧ ((getAllSessionIndexes c7Dirs).map (fun e => e.sessionId)).count "a" = 2 := by
  exact ⟨by decide, by decide, by decide⟩

theorem probeId_basename (f : SessFile)
    (h : f.contentSessionId = none ∨ f.contentSessionId = some f.basename) :
    probeId f = f.basename := by
  rcases h with h | h <;> simp [probeId, h]

theorem goFiles_spec :
    ∀ (fs : List SessFile) (seen : List String),
      (∀ f ∈ fs, f.contentSessionId = none ∨ f.contentSessionId = some f.basename) →
      ((∀ x, x ∈ (goFiles seen fs).1 ↔
          (x ∈ seen ∨ x ∈ (goFiles seen fs).2.map (fun e => e.sessionId)))
        ∧ (∀ f ∈ fs, f.basename ∈ (goFiles seen fs).1)
        ∧ ((goFiles seen fs).2.map (fun e => e.sessionId)).Nodup
        ∧ (∀ x ∈ (goFiles seen fs).2.map (fun e => e.sessionId), x ∉ seen)
        ∧ (∀ x ∈ (goFiles seen fs).2.map (fun e => e.sessionId),
            ∃ f ∈ fs, x = f.basename)) := by
  intro fs
  induction fs with
  | nil => intro seen _; simp [goFiles]
  | cons f fs ih =>
    intro seen h1
    have hpid : probeId f = f.basename :=
      probeId_basename f (h1 f (List.mem_cons_self _ _))
    have h1' : ∀ g ∈ fs, g.contentSessionId = none ∨ g.contentSessionId = some g.basename :=
      fun g hg => h1 g (List.mem_cons_of_mem _ hg)
    unfold goFiles
    by_cases hmem : f.basename ∈ seen
    · rw [if_pos hmem]
      obtain ⟨A1, A2, A3, A4, A5⟩ := ih seen h1'
      refine ⟨A1, ?_, A3, A4, ?_⟩
      · intro g hg
        rcases List.mem_cons.mp hg with rfl | hg'
        · exact (A1 g.basename).mpr (Or.inl hmem)
        · exact A2 g hg'
      · intro x hx
        obtain ⟨g, hg, hgx⟩ := A5 x hx
        exact ⟨g, List.mem_cons_of_mem _ hg, hgx⟩
    · rw [if_neg hmem]
      dsimp only
      obtain ⟨A1, A2, A3, A4, A5⟩ := ih (f.basename :: seen) h1'
      refine ⟨?_, ?_, ?_, ?_, ?_⟩
      · intro x
        rw [A1 x]
        simp only [List.map_cons, List.mem_cons, hpid]
        tauto
      · intro g hg
        rcases List.mem_cons.mp hg with rfl | hg'
        · exact (A1 g.basename).mpr (Or.inl (List.mem_cons_self _ _))
        · exact A2 g hg'
      · rw [List.map_cons, List.nodup_cons]
        refine ⟨?_, A3⟩
        rw [hpid]
        intro hbn
        exact A4 _ hbn (List.mem_cons_self _ _)
      · intro x hx
        rw [List.map_cons, List.mem_cons] at hx
        rcases hx with rfl | hx'
        · rw [hpid]; exact hmem
        · intro hxs
          exact A4 x hx' (List.mem_cons_of_mem _ hxs)
      · intro x hx
        rw [List.map_cons, List.mem_cons] at hx
        rcases hx with rfl | hx'
        · exact ⟨f, List.mem_cons_self _ _, hpid⟩
        · obtain ⟨g, hg, hgx⟩ := A5 x hx'
          exact ⟨g, List.mem_cons_of_mem _ hg, hgx⟩

/-- All session ids listed by the project indexes, in scan order. -/
def allIdxIds (dirs : List ProjectDir) : List String :=
  (dirs.map (fun d => d.indexIds.getD [])).join

theorem goDirs_spec :
    ∀ (dirs : List ProjectDir) (seen : List String),
      (∀ d ∈ dirs, ∀ f ∈ d.files,
        f.contentSessionId = none ∨ f.contentSessionId = some f.basename) →
      (allIdxIds dirs).Nodup →
      List.Pairwise (fun d1 d2 => ∀ f ∈ d1.files, f.basename ∉ d2.indexIds.getD []) dirs →
      (∀ x ∈ allIdxIds dirs, x ∉ seen) →
      (((goDirs seen dirs).map (fun e => e.sessionId)).Nodup
        ∧ (∀ x ∈ (goDirs seen dirs).map (fun e => e.sessionId), x ∉ seen)
        ∧ (∀ d ∈ dirs, ∀ f ∈ d.files,
            f.basename ∈ (goDirs seen dirs).map (fun e => e.sessionId) ∨ f.basename ∈ seen)
        ∧ (∀ d ∈ dirs, ∀ i ∈ d.indexIds.getD [],
            (⟨i, true⟩ : IndexResultEntry) ∈ goDirs seen dirs)) := by
  intro dirs
  induction dirs with
  | nil => intro seen _ _ _ _; simp [goDirs]
  | cons d ds ih =>
    intro seen hH1 hH2 hH3 hseen
    have hH1d := hH1 d (List.mem_cons_self _ _)
    have hH1ds : ∀ d' ∈ ds, ∀ f ∈ d'.files,
        f.contentSessionId = none ∨ f.contentSessionId = some f.basename :=
      fun d' hd' => hH1 d' (List.mem_cons_of_mem _ hd')
    have hjoin : allIdxIds (d :: ds) = d.indexIds.getD [] ++ allIdxIds ds := by
      simp [allIdxIds]
    rw [hjoin] at hH2 hseen
    rw [List.nodup_append] at hH2
    obtain ⟨hidxnd, hrestnd, hdisj⟩ := hH2
    rw [List.pairwise_cons] at hH3
    obtain ⟨hH3head, hH3tail⟩ := hH3
    obtain ⟨A1, A2, A3, A4, A5⟩ :=
      goFiles_spec d.files (seen ++ d.indexIds.getD []) hH1d
    have hys : ∀ x ∈ allIdxIds ds,
        x ∉ (goFiles (seen ++ d.indexIds.getD []) d.files).1 := by
      intro x hx hxin
      rcases (A1 x).mp hxin with hin | hin
      · rcases List.mem_append.mp hin with hs | hi
        · exact hseen x (List.mem_append_right _ hx) hs
        · exact hdisj hi hx
      · obtain ⟨g, hg, rfl⟩ := A5 x hin
        obtain ⟨l, hl, hxl⟩ := List.mem_join.mp hx
        obtain ⟨d2, hd2, rfl⟩ := List.mem_map.mp hl
        exact hH3head d2 hd2 g hg hxl
    obtain ⟨B1, B2, B3, B4⟩ :=
      ih (goFiles (seen ++ d.indexIds.getD []) d.files).1 hH1ds hrestnd hH3tail hys
    have hsub_seen : ∀ x ∈ seen, x ∈ (goFiles (seen ++ d.indexIds.getD []) d.files).1 :=
      fun x hx => (A1 x).mpr (Or.inl (List.mem_append_left _ hx))
    have hsub_idx : ∀ x ∈ d.indexIds.getD [],
        x ∈ (goFiles (seen ++ d.indexIds.getD []) d.files).1 :=
      fun x hx => (A1 x).mpr (Or.inl (List.mem_append_right _ hx))
    have hsub_file : ∀ x ∈ (goFiles (seen ++ d.indexIds.getD []) d.files).2.map
        (fun e => e.sessionId), x ∈ (goFiles (seen ++ d.indexIds.getD []) d.files).1 :=
      fun x hx => (A1 x).mpr (Or.inr hx)
    unfold goDirs
    dsimp only
    rw [List.map_append, List.map_append, List.map_map]
    have hids : ((fun (e : IndexResultEntry) => e.sessionId)
        ∘ (fun i => (⟨i, true⟩ : IndexResultEntry))) = id := rfl
    rw [hids, List.map_id]
    refine ⟨?_, ?_, ?_, ?_⟩
    · rw [List.nodup_append, List.nodup_append]
      refine ⟨⟨hidxnd, A3, ?_⟩, B1, ?_⟩
      · intro a ha haf
        exact A4 a haf (List.mem_append_right _ ha)
      · intro a ha har
        rcases List.mem_append.mp ha with hi | hf
        · exact B2 a har (hsub_idx a hi)
        · exact B2 a har (hsub_file a hf)
    · intro x hx hxs
      rcases List.mem_append.mp hx with hx' | hr
      · rcases List.mem_append.mp hx' with hi | hf
        · exact hseen x (List.mem_append_left _ hi) hxs
        · exact A4 x hf (List.mem_append_left _ hxs)
      · exact B2 x hr (hsub_seen x hxs)
    · intro d' hd' f hf
      rcases List.mem_cons.mp hd' with rfl | hd''
      · have hb := A2 f hf
        rcases (A1 f.basename).mp hb with hin | hin
        · rcases List.mem_append.mp hin with hs | hi
          · exact Or.inr hs
          · exact Or.inl (List.mem_append_left _ (List.mem_append_left _ hi))
        · exact Or.inl (List.mem_append_left _ (List.mem_append_right _ hin))
      · rcases B3 d' hd'' f hf with hr | hsn
        · exact Or.inl (List.mem_append_right _ hr)
        · rcases (A1 f.basename).mp hsn with hin | hin
          · rcases List.mem_append.mp hin with hs | hi
            · exact Or.inr hs
            · exact Or.inl (List.mem_append_left _ (List.mem_append_left _ hi))
          · exact Or.inl (List.mem_append_left _ (List.mem_append_right _ hin))
    · intro d' hd' i hi
      rcases List.mem_cons.mp hd' with rfl | hd''
      · exact List.mem_append_left _ (List.mem_append_left _
          (List.mem_map_of_mem (fun i => (⟨i, true⟩ : IndexResultEntry)) hi))
      · exact List.mem_append_right _ (B4 d' hd'' i hi)

/-- C7 (amended): `getAllSessionIndexes` prefers index entries — a file
whose base name was already recorded (from an index entry or an earlier
file) is skipped, every index entry is always in the result, and every log
file is represented by an entry with its id. The result has exactly one
entry per unique session id *provided* (i) a file's embedded session id,
when present, equals its base name, (ii) no id is listed twice across the
project indexes, and (iii) no later project's index lists an id equal to a
file base name of an earlier project — index entries are appended without
consulting the seen set, so duplicates arise otherwise
(`getAllSessionIndexes_dup_counterexample`). -/
theorem getAllSessionIndexes_amended (dirs : List ProjectDir)
    (h1 : ∀ d ∈ dirs, ∀ f ∈ d.files,
      f.contentSessionId = none ∨ f.contentSessionId = some f.basename)
    (h2 : (allIdxIds dirs).Nodup)
    (h3 : List.Pairwise
      (fun d1 d2 => ∀ f ∈ d1.files, f.basename ∉ d2.indexIds.getD []) dirs) :
    ((getAllSessionIndexes dirs).map (fun e => e.sessionId)).Nodup
    ∧ (∀ d ∈ dirs, ∀ f ∈ d.files,
        f.basename ∈ (getAllSessionIndexes dirs).map (fun e => e.sessionId))
    ∧ (∀ d ∈ dirs, ∀ i ∈ d.indexIds.getD [],
        (⟨i, true⟩ : IndexResultEntry) ∈ getAllSessionIndexes dirs) := by
  obtain ⟨B1, B2, B3, B4⟩ := goDirs_spec dirs [] h1 h2 h3 (by simp)
  refine ⟨B1, ?_, B4⟩
  intro d hd f hf
  rcases B3 d hd f hf with h | h
  · exact h
  · simp at h

/-- A project where the index covers session "a" and a raw log file for "a"
also exists (plus an unindexed file "b"). -/
def c7GoodDirs : List ProjectDir :=
  [ { indexIds := some ["a"],
      files := [{ basename := "a" }, { basename := "b" }] } ]

/-- Witness for `getAllSessionIndexes_amended`: with an index entry and a
raw file for the same id in one project, the result still has one entry per
id, the file "b" is represented, and the index entry for "a" is kept. -/
theorem getAllSessionIndexes_amended_witness :
    ((getAllSessionIndexes c7GoodDirs).map (fun e => e.sessionId)).Nodup
    ∧ (∀ d ∈ c7GoodDirs, ∀ f ∈ d.files,
        f.basename ∈ (getAllSessionIndexes c7GoodDirs).map (fun e => e.sessionId))
    ∧ (∀ d ∈ c7GoodDirs, ∀ i ∈ d.indexIds.getD [],
        (⟨i, true⟩ : IndexResultEntry) ∈ getAllSessionIndexes c7GoodDirs) :=
  getAllSessionIndexes_amended c7GoodDirs (by decide) (by decide)
    (List.pairwise_singleton _ _)
